import Mathlib

/-!
Verification of `rekordbox_path_updater.py`.

Strings are modelled as byte sequences (`List Nat`, each element < 256, the
UTF-8 bytes of the Python `str`).  Pure helpers of the script become Lean
functions; the filesystem is an explicit snapshot value; the signal-based
batch timeout is modelled by an explicit wall-clock `elapsed` parameter; the
completion order of the thread pool is an explicit permutation parameter.
-/

/-- Byte strings: UTF-8 bytes of a Python `str`. -/
abbrev Bytes := List Nat

/-! ## Primitive string helpers (`str.startswith`, `str.endswith`, `os.path`) -/

/-- `s.startswith(p)` on byte strings (first argument is the pattern). -/
def startsWithBytes : Bytes → Bytes → Bool
  | [], _ => true
  | _ :: _, [] => false
  | p :: ps, c :: cs => p == c && startsWithBytes ps cs

/-- `s.endswith('/')`: the last byte is 47. -/
def endsWith47 : Bytes → Bool
  | [] => false
  | [c] => c == 47
  | _ :: c :: rest => endsWith47 (c :: rest)

/-- `s.startswith('/')`: the first byte is 47. -/
def startsWith47 : Bytes → Bool
  | [] => false
  | c :: _ => c == 47

/-- `os.path.join(a, b)` (posixpath, two arguments): an absolute `b` discards
`a`; otherwise a separator is inserted unless `a` is empty or already ends
with one. -/
def pathJoin (a b : Bytes) : Bytes :=
  if startsWith47 b then b
  else if a.isEmpty || endsWith47 a then a ++ b
  else a ++ 47 :: b

/-- The root-normalization done by the script: append `'/'` unless the string
already ends with it (`if not p.endswith('/'): p += '/'`). -/
def ensureSlash (r : Bytes) : Bytes :=
  if endsWith47 r then r else r ++ [47]

/-- `os.path.basename`: everything after the last `'/'` (empty when the
string ends with `'/'`). -/
def basenameBytes (l : Bytes) : Bytes :=
  l.foldl (fun acc c => if c == 47 then [] else acc ++ [c]) []

/-! ## Percent-encoding (`urllib.parse.quote` / `unquote` at byte level) -/

/-- Bytes `urllib.parse.quote` leaves unescaped with the default
`safe='/'`: ASCII alphanumerics, `_ . - ~` and `/`. -/
def isSafeByte (b : Nat) : Bool :=
  (48 ≤ b && b ≤ 57) || (65 ≤ b && b ≤ 90) || (97 ≤ b && b ≤ 122) ||
    b == 45 || b == 46 || b == 95 || b == 126 || b == 47

/-- Upper-case hex digit byte of a nibble (`quote` emits `%XX` upper case). -/
def hexDigitUpper (n : Nat) : Nat :=
  if n < 10 then 48 + n else 55 + n

/-- Is the byte an ASCII hex digit (upper or lower case)? -/
def isHexByte (b : Nat) : Bool :=
  (48 ≤ b && b ≤ 57) || (65 ≤ b && b ≤ 70) || (97 ≤ b && b ≤ 102)

/-- Value of an ASCII hex digit byte. -/
def hexVal (b : Nat) : Nat :=
  if 48 ≤ b && b ≤ 57 then b - 48
  else if 65 ≤ b && b ≤ 70 then b - 55
  else if 97 ≤ b && b ≤ 102 then b - 87
  else 0

/-- `urllib.parse.quote(s, safe='/')` at byte level: safe bytes pass through,
every other byte becomes `%XX`. -/
def quoteBytes : Bytes → Bytes
  | [] => []
  | b :: rest =>
    if isSafeByte b then b :: quoteBytes rest
    else 37 :: hexDigitUpper (b / 16) :: hexDigitUpper (b % 16) :: quoteBytes rest

/-- `urllib.parse.unquote` at byte level: `%XX` with two hex digits decodes
to a byte, a `%` not followed by two hex digits stays literal. -/
def unquoteBytes : Bytes → Bytes
  | [] => []
  | 37 :: h1 :: h2 :: rest =>
    if isHexByte h1 && isHexByte h2 then
      (hexVal h1 * 16 + hexVal h2) :: unquoteBytes rest
    else 37 :: unquoteBytes (h1 :: h2 :: rest)
  | c :: rest => c :: unquoteBytes rest

/-! ## LocationCodec (`extract_filename_from_location`, `build_new_location`) -/

/-- The bytes of the scheme/host marker `"file://localhost/"` (17 bytes). -/
def schemeHostBytes : Bytes :=
  [102, 105, 108, 101, 58, 47, 47, 108, 111, 99, 97, 108, 104, 111, 115, 116, 47]

/-- `extract_filename_from_location`: strip the `file://localhost/` marker
when present (else use the whole string), percent-decode, take the basename. -/
def extract_filename_from_location (location_url : Bytes) : Bytes :=
  let file_path :=
    if startsWithBytes schemeHostBytes location_url then location_url.drop 17
    else location_url
  basenameBytes (unquoteBytes file_path)

/-- `build_new_location`: normalize the root to end with `'/'`, join with the
filename, percent-encode, and put the `file://localhost/` marker in front. -/
def build_new_location (new_root_path filename : Bytes) : Bytes :=
  let root := ensureSlash new_root_path
  let full_path := pathJoin root filename
  schemeHostBytes ++ quoteBytes full_path

/-! ## Filesystem snapshot and `verify_file_exists` -/

/-- A static filesystem snapshot as seen by one call of the script:
`files` are the absolute paths `os.path.isfile` answers `True` for;
`walkEntries` are the `(dirpath, filenames)` pairs that `os.walk(root)`
yields, in traversal order (the yielded directory lists are irrelevant to the
script and omitted); `walkErr` records that the walk generator raises after
yielding those entries instead of finishing normally. -/
structure FS where
  files : List Bytes
  walkEntries : List (Bytes × List Bytes)
  walkErr : Bool
deriving DecidableEq

/-- First directory of the walk whose file list contains `filename`
(`if filename in files` inside the `os.walk` loop). -/
def findWalkDir : List (Bytes × List Bytes) → Bytes → Option Bytes
  | [], _ => none
  | (dir, fnames) :: rest, filename =>
    if filename ∈ fnames then some dir else findWalkDir rest filename

/-- `verify_file_exists`: normalize the root, test `root/filename` directly,
else walk the subdirectories; a walk error is caught and turned into
`(False, None)`. -/
def verify_file_exists (fs : FS) (new_root_path filename : Bytes) :
    Bool × Option Bytes :=
  let root := ensureSlash new_root_path
  let full_path := pathJoin root filename
  if full_path ∈ fs.files then (true, some full_path)
  else
    match findWalkDir fs.walkEntries filename with
    | some dir => (true, some (pathJoin dir filename))
    | none =>
      -- the `except` branch: an error raised during the walk is caught and
      -- yields the same value as exhausting the walk without a match
      if fs.walkErr then (false, none) else (false, none)

/-! ## WorkerSizer (`get_optimal_worker_count`) -/

/-- `os.cpu_count() or 1`: `None` or `0` fall back to `1`. -/
def cpuCountOr1 : Option Nat → Nat
  | none => 1
  | some n => if n = 0 then 1 else n

/-- `get_optimal_worker_count`.  A user override is clamped to `[1, 64]`.
Otherwise `optimal = int(cpu * 1.5 * memory_factor)` with
`memory_factor = min(2.0, memory_gb / 4.0)` when `psutil` is available and
`1.0` when not (float arithmetic modelled over `ℚ`, `int()` as floor of the
non-negative value), clamped to `[max(2, cpu), min(32, 4 * cpu)]` using
`max min_workers (min optimal max_workers)`. -/
def get_optimal_worker_count (max_workers : Option Int) (osCpu : Option Nat)
    (memory_gb : Option ℚ) : Int :=
  match max_workers with
  | some mw => max 1 (min mw 64)
  | none =>
    let cpu_count : Int := cpuCountOr1 osCpu
    let memory_factor : ℚ := match memory_gb with
      | some m => min 2 (m / 4)
      | none => 1
    let optimal_workers : Int := Int.floor ((cpu_count : ℚ) * (3 / 2) * memory_factor)
    let min_workers : Int := max 2 cpu_count
    let mx_workers : Int := min 32 (cpu_count * 4)
    max min_workers (min optimal_workers mx_workers)

/-! ## Python dict (insertion-ordered, last assignment wins) -/

/-- `d[k] = v` on an insertion-ordered association list: replace the value in
place when the key is present, append otherwise — exactly a Python dict
assignment. -/
def dictSet {α : Type} (d : List (Bytes × α)) (k : Bytes) (v : α) :
    List (Bytes × α) :=
  match d with
  | [] => [(k, v)]
  | (k', v') :: rest => if k' = k then (k', v) :: rest else (k', v') :: dictSet rest k v

/-- `d[k]` / `d.get(k)`: first (hence only) entry with the key. -/
def dictLookup {α : Type} (d : List (Bytes × α)) (k : Bytes) : Option α :=
  match d with
  | [] => none
  | (k', v) :: rest => if k' = k then some v else dictLookup rest k

/-! ## BatchVerifier (`verify_files_batch`) -/

/-- The verification loop shared by both modes of `verify_files_batch`: walk
the `(filename, location)` pairs in processing order, store
`results[filename] = verify_file_exists(root, filename)` for each, and record
the trace of filesystem searches actually performed (one per pair — the code
never deduplicates before dispatch).  Sequential mode processes `file_list`
in order; concurrent mode submits one task per pair and collects them in
completion order. -/
def runVerAux (fs : FS) (root : Bytes)
    (results : List (Bytes × (Bool × Option Bytes))) (trace : List Bytes) :
    List (Bytes × Bytes) → List (Bytes × (Bool × Option Bytes)) × List Bytes
  | [] => (results, trace)
  | (filename, _location) :: rest =>
    runVerAux fs root
      (dictSet results filename (verify_file_exists fs root filename))
      (trace ++ [filename]) rest

/-- Results dict and search trace of one batch over `file_list`. -/
def runVerifications (fs : FS) (root : Bytes) (file_list : List (Bytes × Bytes)) :
    List (Bytes × (Bool × Option Bytes)) × List Bytes :=
  runVerAux fs root [] [] file_list

/-- The only batch-level failure: the 30-minute `SIGALRM` raising
`TimeoutError`. -/
inductive BatchError where
  | timeout
deriving DecidableEq

/-- `verify_files_batch`.  `use_single_thread` selects the sequential loop,
which has no timeout mechanism at all.  The multithreaded branch arms a
30-minute alarm (`signal.alarm(1800)`) around submission and collection;
`elapsed` is the wall-clock time the whole collection takes and
`completion_order` the order in which `as_completed` yields the futures (a
permutation of `file_list` — one task was submitted per pair). -/
def verify_files_batch (file_list : List (Bytes × Bytes)) (fs : FS)
    (new_root_path : Bytes) (use_single_thread : Bool)
    (completion_order : List (Bytes × Bytes)) (elapsed : Nat) :
    Except BatchError (List (Bytes × (Bool × Option Bytes))) :=
  if use_single_thread then
    Except.ok (runVerifications fs new_root_path file_list).1
  else if 1800 ≤ elapsed then
    Except.error BatchError.timeout
  else
    Except.ok (runVerifications fs new_root_path completion_order).1

/-! ## Catalog records and the update driver (`update_rekordbox_xml`) -/

/-- A `TRACK` element, reduced to the one attribute the script reads and
writes: `Location` (`track.get('Location')`, absent attribute = `none`). -/
structure Track where
  location : Option Bytes
deriving DecidableEq

/-- The eligibility test of the collection loop:
`if location and location.startswith('file://localhost/')` (an empty string
is falsy, and also fails the `startswith` test). -/
def eligibleTrack (t : Track) : Bool :=
  match t.location with
  | some loc => startsWithBytes schemeHostBytes loc
  | none => false

/-- The collection loop of `update_rekordbox_xml`: for each eligible track
append `(filename, location)` to `files_to_verify` and assign
`track_locations[filename] = track` (modelled by the track's index, so a
later track with the same filename silently overwrites the earlier one). -/
def collectAux (i : Nat) (files_to_verify : List (Bytes × Bytes))
    (track_locations : List (Bytes × Nat)) :
    List Track → List (Bytes × Bytes) × List (Bytes × Nat)
  | [] => (files_to_verify, track_locations)
  | t :: rest =>
    match t.location with
    | some loc =>
      if startsWithBytes schemeHostBytes loc then
        collectAux (i + 1)
          (files_to_verify ++ [(extract_filename_from_location loc, loc)])
          (dictSet track_locations (extract_filename_from_location loc) i) rest
      else collectAux (i + 1) files_to_verify track_locations rest
    | none => collectAux (i + 1) files_to_verify track_locations rest

/-- `files_to_verify` and `track_locations` collected from the track list. -/
def collectFiles (tracks : List Track) : List (Bytes × Bytes) × List (Bytes × Nat) :=
  collectAux 0 [] [] tracks

/-- Entries of `errors_list`, and the messages produced by the two `except`
handlers of `update_rekordbox_xml`. -/
inductive ErrMsg where
  | fileNotFound (full_path : Bytes)
  | xmlParsing
  | unexpected
deriving DecidableEq

/-- The literal string `"root"` reported when a file was found directly
under the root. -/
def rootLiteral : Bytes := [114, 111, 111, 116]

/-- `os.path.relpath(p, root)` modelled for the paths this script feeds it:
a found path that extends the root keeps its remainder; any other path is
returned unchanged. -/
def relpathFrom (p root : Bytes) : Bytes :=
  if startsWithBytes (ensureSlash root) p then p.drop (ensureSlash root).length
  else p

/-- `track.set('Location', new_location)` on the track at index `i`. -/
def setTrackLocation (tracks : List Track) (i : Nat) (loc : Bytes) : List Track :=
  tracks.set i (Track.mk (some loc))

/-- The result-processing loop of `update_rekordbox_xml`
(`for filename, (found, found_path) in verification_results.items()`).
A missing `track_locations` key (`KeyError`) or a `found` entry without a
path (`os.path.relpath(None, ...)` raising `TypeError`) escapes the loop and
is caught by the enclosing `except Exception`; the error value carries the
in-memory track list at the moment of the raise. -/
def processResults (new_root_path : Bytes) (dry_run : Bool)
    (track_locations : List (Bytes × Nat)) :
    List (Bytes × (Bool × Option Bytes)) → List Track → Nat → Nat →
    List ErrMsg → List (Bytes × Bytes) →
    Except (List Track) (Nat × Nat × List ErrMsg × List (Bytes × Bytes) × List Track)
  | [], tracks, success_count, error_count, errors_list, successful_files =>
    Except.ok (success_count, error_count, errors_list, successful_files, tracks)
  | (filename, (found, found_path)) :: rest, tracks, success_count, error_count,
      errors_list, successful_files =>
    match dictLookup track_locations filename with
    | none => Except.error tracks
    | some idx =>
      if found then
        let new_location := build_new_location new_root_path filename
        let tracks2 := if dry_run then tracks
          else setTrackLocation tracks idx new_location
        match found_path with
        | none => Except.error tracks2
        | some fp =>
          let relative_path :=
            if fp = pathJoin new_root_path filename then rootLiteral
            else relpathFrom fp new_root_path
          processResults new_root_path dry_run track_locations rest tracks2
            (success_count + 1) error_count errors_list
            (successful_files ++ [(filename, relative_path)])
      else
        processResults new_root_path dry_run track_locations rest tracks
          success_count (error_count + 1)
          (errors_list ++ [ErrMsg.fileNotFound (pathJoin new_root_path filename)])
          successful_files

/-- Track list carried by either outcome of the processing loop. -/
def tracksOfPR :
    Except (List Track) (Nat × Nat × List ErrMsg × List (Bytes × Bytes) × List Track) →
    List Track
  | Except.error t => t
  | Except.ok (_, _, _, _, t) => t

/-- The tuple `update_rekordbox_xml` returns: the empty-batch path returns
three values, every other path returns four. -/
inductive UpdateReturn where
  | three (success_count error_count : Nat) (errors_list : List ErrMsg)
  | four (success_count error_count : Nat) (errors_list : List ErrMsg)
      (successful_files : List (Bytes × Bytes))
deriving DecidableEq

/-- `success_count` of a returned tuple. -/
def retSuccess : UpdateReturn → Nat
  | UpdateReturn.three sc _ _ => sc
  | UpdateReturn.four sc _ _ _ => sc

/-- One run of `update_rekordbox_xml`: the returned tuple plus its externally
visible effects — the in-memory element tree (`tracks`) and whether the
backup file and the updated XML file were written. -/
structure UpdateOutcome where
  ret : UpdateReturn
  tracks : List Track
  wroteBackup : Bool
  wroteXml : Bool
deriving DecidableEq

/-- The list of tracks the parse produced (empty when parsing failed). -/
def tracksOf : Except Unit (List Track) → List Track
  | Except.ok t => t
  | Except.error _ => []

/-- `update_rekordbox_xml`.  `parsed` is the outcome of `ET.parse`
(`.error` = `ET.ParseError`); the file writes happen only when
`not dry_run and success_count > 0`, and the backup is written from the
already-mutated tree.  A `TimeoutError` from the batch, or an error escaping
the processing loop, is caught by `except Exception` and reported as a
four-tuple with an `unexpected` message and zero counts. -/
def update_rekordbox_xml (parsed : Except Unit (List Track))
    (new_root_path : Bytes) (dry_run : Bool) (use_single_thread : Bool)
    (completion_order : List (Bytes × Bytes)) (elapsed : Nat) (fs : FS) :
    UpdateOutcome :=
  match parsed with
  | Except.error _ =>
    UpdateOutcome.mk (UpdateReturn.four 0 0 [ErrMsg.xmlParsing] []) [] false false
  | Except.ok tracks =>
    let collected := collectFiles tracks
    if collected.1.isEmpty then
      UpdateOutcome.mk (UpdateReturn.three 0 0 []) tracks false false
    else
      match verify_files_batch collected.1 fs new_root_path use_single_thread
          completion_order elapsed with
      | Except.error _ =>
        UpdateOutcome.mk (UpdateReturn.four 0 0 [ErrMsg.unexpected] []) tracks false false
      | Except.ok verification_results =>
        match processResults new_root_path dry_run collected.2
            verification_results tracks 0 0 [] [] with
        | Except.error tracks2 =>
          UpdateOutcome.mk (UpdateReturn.four 0 0 [ErrMsg.unexpected] []) tracks2 false false
        | Except.ok (sc, ec, errs, succ, tracks2) =>
          let wrote := !dry_run && decide (0 < sc)
          UpdateOutcome.mk (UpdateReturn.four sc ec errs succ) tracks2 wrote wrote

/-- The unpacking done by `main`:
`success_count, error_count, errors_list, successful_files = update_rekordbox_xml(...)`.
A three-element tuple raises `ValueError: not enough values to unpack`. -/
def unpackFour : UpdateReturn →
    Except Unit (Nat × Nat × List ErrMsg × List (Bytes × Bytes))
  | UpdateReturn.three _ _ _ => Except.error ()
  | UpdateReturn.four a b c d => Except.ok (a, b, c, d)

/-! ## Per-item error recovery and mode equivalence of the batch -/

/-! ## One result per distinct filename (record collapse), empty-batch tuple
shape, and the dry-run frame -/

/-! ## Codec lemmas -/

theorem startsWithBytes_append (p t : Bytes) : startsWithBytes p (p ++ t) = true := by
  induction p with
  | nil => rfl
  | cons a ps ih => simp [startsWithBytes, ih]

theorem isSafeByte_ne_37 {b : Nat} (h : isSafeByte b = true) : b ≠ 37 := by
  intro hb; subst hb; simp [isSafeByte] at h

theorem hexVal_hexDigitUpper {n : Nat} (h : n < 16) :
    hexVal (hexDigitUpper n) = n := by
  unfold hexDigitUpper hexVal
  split <;> rename_i h10
  · have h1 : 48 ≤ 48 + n := by omega
    have h2 : 48 + n ≤ 57 := by omega
    simp [h1, h2]
  · have h1 : ¬(55 + n ≤ 57) := by omega
    have h2 : 65 ≤ 55 + n := by omega
    have h3 : 55 + n ≤ 70 := by omega
    simp [h1, h2, h3]

theorem isHexByte_hexDigitUpper {n : Nat} (h : n < 16) :
    isHexByte (hexDigitUpper n) = true := by
  unfold hexDigitUpper isHexByte
  split <;> rename_i h10
  · have h1 : 48 ≤ 48 + n := by omega
    have h2 : 48 + n ≤ 57 := by omega
    simp [h1, h2]
  · have h2 : 65 ≤ 55 + n := by omega
    have h3 : 55 + n ≤ 70 := by omega
    simp [h2, h3]

theorem unquoteBytes_cons_ne37 (b : Nat) (rest : Bytes) (hne : b ≠ 37) :
    unquoteBytes (b :: rest) = b :: unquoteBytes rest := by
  rw [unquoteBytes.eq_def]
  split
  · rename_i heq; exact absurd heq (by simp)
  · rename_i h1 h2 r heq
    exfalso
    have hb : b = 37 := by injection heq
    exact hne hb
  · rename_i x c r hguard heq2
    injection heq2 with hb hr
    subst hb; subst hr; rfl

theorem unquote_quote (l : Bytes) (h : ∀ b ∈ l, b < 256) :
    unquoteBytes (quoteBytes l) = l := by
  induction l with
  | nil => rfl
  | cons b rest ih =>
    have hb : b < 256 := h b (by simp)
    have hrest : ∀ x ∈ rest, x < 256 := fun x hx => h x (by simp [hx])
    by_cases hs : isSafeByte b = true
    · have hne : b ≠ 37 := isSafeByte_ne_37 hs
      rw [quoteBytes, if_pos hs, unquoteBytes_cons_ne37 b _ hne, ih hrest]
    · have hhi : b / 16 < 16 := by omega
      have hlo : b % 16 < 16 := by omega
      rw [quoteBytes, if_neg hs]
      rw [unquoteBytes]
      rw [if_pos (by simp [isHexByte_hexDigitUpper hhi, isHexByte_hexDigitUpper hlo])]
      rw [hexVal_hexDigitUpper hhi, hexVal_hexDigitUpper hlo, ih hrest]
      congr 1
      omega

theorem basenameAux_no47 (f : Bytes) (h : 47 ∉ f) (acc : Bytes) :
    f.foldl (fun acc c => if c == 47 then [] else acc ++ [c]) acc = acc ++ f := by
  induction f generalizing acc with
  | nil => simp
  | cons c cs ih =>
    have hc : ¬((c == 47) = true) := by
      simp only [beq_iff_eq]
      intro h'; exact h (by simp [h'])
    have hcs : 47 ∉ cs := fun hm => h (by simp [hm])
    rw [List.foldl_cons, if_neg hc, ih hcs]
    simp

theorem basenameAux_endsWith47 (a : Bytes) (h : endsWith47 a = true) (acc : Bytes) :
    a.foldl (fun acc c => if c == 47 then [] else acc ++ [c]) acc = [] := by
  induction a generalizing acc with
  | nil => simp [endsWith47] at h
  | cons c cs ih =>
    cases cs with
    | nil =>
      have : c = 47 := by simpa [endsWith47] using h
      subst this
      simp
    | cons d ds =>
      have h' : endsWith47 (d :: ds) = true := by simpa [endsWith47] using h
      simp only [List.foldl_cons]
      exact ih h' _

theorem basenameBytes_append_of_endsWith47 (a f : Bytes)
    (ha : endsWith47 a = true) (hf : 47 ∉ f) :
    basenameBytes (a ++ f) = f := by
  unfold basenameBytes
  rw [List.foldl_append]
  rw [basenameAux_endsWith47 a ha]
  simpa using basenameAux_no47 f hf []

theorem endsWith47_append47 (r : Bytes) : endsWith47 (r ++ [47]) = true := by
  induction r with
  | nil => rfl
  | cons c cs ih =>
    cases cs with
    | nil => rfl
    | cons d ds => simpa [endsWith47] using ih

theorem endsWith47_ensureSlash (r : Bytes) : endsWith47 (ensureSlash r) = true := by
  unfold ensureSlash
  split
  · assumption
  · exact endsWith47_append47 r

theorem ensureSlash_ne_nil (r : Bytes) : ensureSlash r ≠ [] := by
  unfold ensureSlash
  split
  · rename_i h
    intro hn; subst hn; simp [endsWith47] at h
  · simp

theorem pathJoin_of_endsWith47 (a f : Bytes) (ha : endsWith47 a = true)
    (hf : 47 ∉ f) : pathJoin a f = a ++ f := by
  unfold pathJoin
  have hsw : startsWith47 f = false := by
    cases f with
    | nil => rfl
    | cons c cs =>
      have : c ≠ 47 := fun hc => hf (by simp [hc])
      simpa [startsWith47] using this
  rw [hsw]
  simp [ha]

/-- C3: for every root `r` and filename `f` (a filename contains no path
separator; bytes are genuine bytes, i.e. < 256), decoding the URL produced by
encoding returns the filename:
`extract_filename_from_location (build_new_location r f) = f`. -/
theorem extract_of_build_roundtrip (r f : Bytes)
    (hf : 47 ∉ f)
    (hr256 : ∀ b ∈ r, b < 256) (hf256 : ∀ b ∈ f, b < 256) :
    extract_filename_from_location (build_new_location r f) = f := by
  unfold build_new_location extract_filename_from_location
  simp only [startsWithBytes_append, if_pos]
  have hdrop : (schemeHostBytes ++ quoteBytes (pathJoin (ensureSlash r) f)).drop 17
      = quoteBytes (pathJoin (ensureSlash r) f) := by
    have : schemeHostBytes.length = 17 := by rfl
    rw [← this, List.drop_left]
  rw [hdrop]
  have hjoin : pathJoin (ensureSlash r) f = ensureSlash r ++ f :=
    pathJoin_of_endsWith47 _ _ (endsWith47_ensureSlash r) hf
  rw [hjoin]
  have h256 : ∀ b ∈ ensureSlash r ++ f, b < 256 := by
    intro b hb
    rcases List.mem_append.mp hb with h | h
    · unfold ensureSlash at h
      split at h
      · exact hr256 b h
      · rcases List.mem_append.mp h with h' | h'
        · exact hr256 b h'
        · simp at h'; omega
    · exact hf256 b h
  rw [unquote_quote _ h256]
  exact basenameBytes_append_of_endsWith47 _ _ (endsWith47_ensureSlash r) hf

/-- C3 witness: the round trip at a concrete root `/Music` and filename
`song.mp3`. -/
theorem extract_of_build_roundtrip_witness :
    47 ∉ ([115, 111, 110, 103, 46, 109, 112, 51] : Bytes) ∧
    extract_filename_from_location
      (build_new_location [47, 77, 117, 115, 105, 99] [115, 111, 110, 103, 46, 109, 112, 51])
      = [115, 111, 110, 103, 46, 109, 112, 51] :=
  ⟨by decide,
   extract_of_build_roundtrip [47, 77, 117, 115, 105, 99] [115, 111, 110, 103, 46, 109, 112, 51]
     (by decide) (by decide) (by decide)⟩

/-- C5: when a file exists directly at `root/filename`, `verify_file_exists`
returns `(True, root/filename)` — the direct lookup short-circuits the walk,
whatever `walkEntries` (which may contain an identically-named file in a
subdirectory). -/
theorem verify_file_exists_direct (fs : FS) (r f : Bytes)
    (h : pathJoin (ensureSlash r) f ∈ fs.files) :
    verify_file_exists fs r f = (true, some (pathJoin (ensureSlash r) f)) := by
  unfold verify_file_exists
  simp only [if_pos h]

/-- C5 witness: root `/m`, file `a` present both directly and in subdirectory
`/m/sub`; the result is the direct path `/m/a`. -/
theorem verify_file_exists_direct_witness :
    pathJoin (ensureSlash [47, 109]) [97] ∈
      (FS.mk [[47, 109, 47, 97], [47, 109, 47, 115, 47, 97]]
        [([47, 109, 47, 115], [[97]])] false).files ∧
    verify_file_exists
      (FS.mk [[47, 109, 47, 97], [47, 109, 47, 115, 47, 97]]
        [([47, 109, 47, 115], [[97]])] false)
      [47, 109] [97] = (true, some (pathJoin (ensureSlash [47, 109]) [97])) :=
  ⟨by decide,
   verify_file_exists_direct
     (FS.mk [[47, 109, 47, 97], [47, 109, 47, 115, 47, 97]]
       [([47, 109, 47, 115], [[97]])] false)
     [47, 109] [97] (by decide)⟩

/-- C7 counterexample: with no override and 64 CPUs (no memory signal), the
result is 64, which is not within the claimed interval
`[max(2,cpu), min(32,4*cpu)] = [64, 32]`. -/
theorem get_optimal_worker_count_cpu64 :
    get_optimal_worker_count none (some 64) none = 64 ∧
    ¬(get_optimal_worker_count none (some 64) none ≤ min 32 (4 * (64 : Int))) := by
  have h : get_optimal_worker_count none (some 64) none = 64 := by
    have hc : cpuCountOr1 (some 64) = 64 := rfl
    unfold get_optimal_worker_count
    rw [hc]
    norm_num [max_def, min_def]
  refine ⟨h, ?_⟩
  rw [h]
  decide

/-- C7 amended: with an override the result is within `[1, 64]`; without an
override it is at least `max(2, cpu)` and at most
`max (max 2 cpu) (min 32 (4*cpu))` — equal to the claimed upper bound
`min 32 (4*cpu)` whenever `cpu ≤ 32`, but equal to `cpu` (exceeding 32) when
`cpu > 32`, since the code takes `max min_workers (min optimal max_workers)`
and `min_workers > max_workers` there. -/
theorem get_optimal_worker_count_bounds (mw : Int) (osCpu : Option Nat)
    (mem : Option ℚ) :
    (1 ≤ get_optimal_worker_count (some mw) osCpu mem ∧
      get_optimal_worker_count (some mw) osCpu mem ≤ 64) ∧
    (max 2 ((cpuCountOr1 osCpu : Nat) : Int) ≤ get_optimal_worker_count none osCpu mem ∧
      get_optimal_worker_count none osCpu mem ≤
        max (max 2 ((cpuCountOr1 osCpu : Nat) : Int))
          (min 32 (4 * ((cpuCountOr1 osCpu : Nat) : Int)))) := by
  refine ⟨⟨?_, ?_⟩, ?_, ?_⟩
  · exact le_max_left _ _
  · exact max_le (by norm_num) (le_trans (min_le_right _ _) (by norm_num))
  · exact le_max_left _ _
  · refine max_le (le_max_left _ _) (le_trans (min_le_right _ _) ?_)
    have : (cpuCountOr1 osCpu : Int) * 4 = 4 * (cpuCountOr1 osCpu : Int) := by ring
    rw [this]
    exact le_max_right _ _

theorem dictLookup_dictSet {α : Type} (d : List (Bytes × α)) (k k' : Bytes) (v : α) :
    dictLookup (dictSet d k v) k' = if k = k' then some v else dictLookup d k' := by
  induction d with
  | nil => by_cases h : k = k' <;> simp [dictSet, dictLookup, h]
  | cons p rest ih =>
    obtain ⟨k0, v0⟩ := p
    by_cases h0 : k0 = k
    · subst h0
      simp only [dictSet, if_pos rfl]
      by_cases h1 : k0 = k'
      · simp [dictLookup, h1]
      · simp [dictLookup, h1]
    · simp only [dictSet, if_neg h0, dictLookup]
      by_cases h1 : k0 = k'
      · subst h1
        have h2 : ¬(k = k0) := fun h => h0 h.symm
        rw [if_pos rfl, if_neg h2, if_pos rfl]
      · rw [if_neg h1, ih]
        by_cases h2 : k = k'
        · rw [if_pos h2, if_pos h2]
        · rw [if_neg h2, if_neg h2, if_neg h1]

theorem dictLookup_eq_none_iff {α : Type} (d : List (Bytes × α)) (k : Bytes) :
    dictLookup d k = none ↔ k ∉ d.map Prod.fst := by
  induction d with
  | nil => simp [dictLookup]
  | cons p rest ih =>
    obtain ⟨k0, v0⟩ := p
    by_cases h0 : k0 = k
    · subst h0; simp [dictLookup]
    · have h2 : ¬(k = k0) := fun h => h0 h.symm
      simp only [dictLookup, if_neg h0, List.map_cons, List.mem_cons, ih]
      constructor
      · intro hn hm
        rcases hm with h | h
        · exact h2 h
        · exact hn h
      · intro hn hm
        exact hn (Or.inr hm)

theorem dictSet_keys {α : Type} (d : List (Bytes × α)) (k : Bytes) (v : α) :
    (dictSet d k v).map Prod.fst =
      if k ∈ d.map Prod.fst then d.map Prod.fst else d.map Prod.fst ++ [k] := by
  induction d with
  | nil => simp [dictSet]
  | cons p rest ih =>
    obtain ⟨k0, v0⟩ := p
    by_cases h0 : k0 = k
    · subst h0; simp [dictSet]
    · have h2 : ¬(k = k0) := fun h => h0 h.symm
      simp only [dictSet, if_neg h0, List.map_cons, ih]
      by_cases h1 : k ∈ rest.map Prod.fst
      · rw [if_pos h1, if_pos (List.mem_cons_of_mem _ h1)]
      · have hnot : k ∉ k0 :: rest.map Prod.fst := by
          intro hm
          rcases List.mem_cons.mp hm with h | h
          · exact h2 h
          · exact h1 h
        rw [if_neg h1, if_neg hnot]
        simp

theorem dictSet_values {α : Type} (d : List (Bytes × α)) (k : Bytes) (v : α)
    (F : Bytes → α) (hv : v = F k) (hd : ∀ p ∈ d, p.2 = F p.1) :
    ∀ p ∈ dictSet d k v, p.2 = F p.1 := by
  induction d with
  | nil =>
    intro p hp
    simp [dictSet] at hp
    subst hp; simpa using hv
  | cons q rest ih =>
    obtain ⟨k0, v0⟩ := q
    intro p hp
    by_cases h0 : k0 = k
    · subst h0
      simp only [dictSet, if_pos rfl] at hp
      rcases List.mem_cons.mp hp with h | h
      · subst h; simpa using hv
      · exact hd p (by simp [h])
    · simp only [dictSet, if_neg h0] at hp
      rcases List.mem_cons.mp hp with h | h
      · subst h; exact hd (k0, v0) (by simp)
      · exact ih (fun q hq => hd q (by simp [hq])) p h

theorem runVerAux_trace (fs : FS) (root : Bytes) (l : List (Bytes × Bytes)) :
    ∀ results trace,
      (runVerAux fs root results trace l).2 = trace ++ l.map Prod.fst := by
  induction l with
  | nil => intro results trace; simp [runVerAux]
  | cons p rest ih =>
    intro results trace
    obtain ⟨fn, loc⟩ := p
    simp [runVerAux, ih]

theorem runVerAux_lookup (fs : FS) (root : Bytes) (l : List (Bytes × Bytes)) :
    ∀ results trace k,
      dictLookup (runVerAux fs root results trace l).1 k =
        if k ∈ l.map Prod.fst then some (verify_file_exists fs root k)
        else dictLookup results k := by
  induction l with
  | nil => intro results trace k; simp [runVerAux]
  | cons p rest ih =>
    intro results trace k
    obtain ⟨fn, loc⟩ := p
    rw [runVerAux, ih, dictLookup_dictSet]
    by_cases hk : k ∈ rest.map Prod.fst
    · simp [hk]
    · by_cases hfn : fn = k
      · subst hfn; simp [hk]
      · have h2 : ¬(k = fn) := fun h => hfn h.symm
        simp [hk, hfn, h2]

theorem runVerAux_keys_mem (fs : FS) (root : Bytes) (l : List (Bytes × Bytes)) :
    ∀ results trace k,
      k ∈ (runVerAux fs root results trace l).1.map Prod.fst ↔
        k ∈ results.map Prod.fst ∨ k ∈ l.map Prod.fst := by
  intro results trace k
  have h := runVerAux_lookup fs root l results trace k
  have h1 := dictLookup_eq_none_iff (runVerAux fs root results trace l).1 k
  have h2 := dictLookup_eq_none_iff results k
  by_cases hk : k ∈ l.map Prod.fst
  · rw [if_pos hk] at h
    constructor
    · intro _; exact Or.inr hk
    · intro _
      by_contra hmem
      have := h1.mpr hmem
      rw [this] at h
      exact Option.noConfusion h
  · rw [if_neg hk] at h
    constructor
    · intro hmem
      left
      by_contra hr
      have := h2.mpr hr
      rw [this] at h
      exact h1.mp h hmem
    · intro hor
      rcases hor with hr | hl
      · by_contra hmem
        have := h1.mpr hmem
        rw [this] at h
        exact h2.mp h.symm hr
      · exact absurd hl hk

/-- C6: when the recursive walk raises (walkErr) and neither the direct
check nor the entries yielded before the raise matched, `verify_file_exists`
returns `(False, None)` instead of propagating the error; and any batch keeps
one outcome per listed filename — a single item's filesystem failure never
aborts the batch or sibling lookups. -/
theorem verify_file_exists_walk_error (fs : FS) (r f : Bytes)
    (herr : fs.walkErr = true)
    (hdirect : pathJoin (ensureSlash r) f ∉ fs.files)
    (hwalk : findWalkDir fs.walkEntries f = none) :
    verify_file_exists fs r f = (false, none) ∧
    ∀ (l : List (Bytes × Bytes)) (k : Bytes), k ∈ l.map Prod.fst →
      dictLookup (runVerifications fs r l).1 k = some (verify_file_exists fs r k) := by
  constructor
  · unfold verify_file_exists
    simp only [if_neg hdirect, hwalk, herr]
    simp
  · intro l k hk
    unfold runVerifications
    rw [runVerAux_lookup, if_pos hk]

/-- C6 witness: a snapshot whose walk raises; the lookup for `a` under `/m`
recovers to `(False, None)` and the batch still has outcomes for both `a`
and its sibling `b`. -/
theorem verify_file_exists_walk_error_witness :
    (FS.mk [[47, 109, 47, 98]] [] true).walkErr = true ∧
    (verify_file_exists (FS.mk [[47, 109, 47, 98]] [] true) [47, 109] [97]
        = (false, none) ∧
      ∀ (l : List (Bytes × Bytes)) (k : Bytes), k ∈ l.map Prod.fst →
        dictLookup (runVerifications (FS.mk [[47, 109, 47, 98]] [] true) [47, 109] l).1 k
          = some (verify_file_exists (FS.mk [[47, 109, 47, 98]] [] true) [47, 109] k)) :=
  ⟨rfl,
   verify_file_exists_walk_error (FS.mk [[47, 109, 47, 98]] [] true) [47, 109] [97]
     rfl (by decide) (by decide)⟩

/-- C8: for a static filesystem snapshot, whatever order the pool completes
the tasks in (any permutation of the input list), the concurrent mode —
absent a timeout — and the sequential mode produce the same outcome map:
exactly one entry per distinct input filename, valued at the
`verify_file_exists` answer for that filename. -/
theorem verify_files_batch_mode_equiv (file_list completion_order : List (Bytes × Bytes))
    (fs : FS) (root : Bytes) (elapsed : Nat)
    (hperm : completion_order.Perm file_list) (ht : elapsed < 1800) :
    ∃ dC dS,
      verify_files_batch file_list fs root false completion_order elapsed = Except.ok dC ∧
      verify_files_batch file_list fs root true completion_order elapsed = Except.ok dS ∧
      (∀ k, dictLookup dC k = dictLookup dS k) ∧
      (∀ k, dictLookup dS k ≠ none ↔ k ∈ file_list.map Prod.fst) ∧
      (∀ k, k ∈ file_list.map Prod.fst →
        dictLookup dS k = some (verify_file_exists fs root k)) := by
  refine ⟨(runVerifications fs root completion_order).1,
    (runVerifications fs root file_list).1, ?_, rfl, ?_, ?_, ?_⟩
  · unfold verify_files_batch
    rw [if_neg (by simp), if_neg (by omega)]
  · intro k
    unfold runVerifications
    rw [runVerAux_lookup, runVerAux_lookup]
    have hmem : k ∈ completion_order.map Prod.fst ↔ k ∈ file_list.map Prod.fst :=
      (hperm.map Prod.fst).mem_iff
    by_cases hk : k ∈ file_list.map Prod.fst
    · rw [if_pos (hmem.mpr hk), if_pos hk]
    · rw [if_neg (fun h => hk (hmem.mp h)), if_neg hk]
  · intro k
    unfold runVerifications
    rw [runVerAux_lookup]
    by_cases hk : k ∈ file_list.map Prod.fst
    · simp [hk]
    · simp [hk, dictLookup]
  · intro k hk
    unfold runVerifications
    rw [runVerAux_lookup, if_pos hk]

/-- C8 witness: a two-element batch collected in reversed completion order
gives the same outcome map as the sequential loop. -/
theorem verify_files_batch_mode_equiv_witness :
    ([([98], [121]), ([97], [120])] : List (Bytes × Bytes)).Perm
      [([97], [120]), ([98], [121])] ∧
    (∃ dC dS,
      verify_files_batch [([97], [120]), ([98], [121])] (FS.mk [[47, 97]] [] false)
        [47] false [([98], [121]), ([97], [120])] 0 = Except.ok dC ∧
      verify_files_batch [([97], [120]), ([98], [121])] (FS.mk [[47, 97]] [] false)
        [47] true [([98], [121]), ([97], [120])] 0 = Except.ok dS ∧
      (∀ k, dictLookup dC k = dictLookup dS k) ∧
      (∀ k, dictLookup dS k ≠ none ↔
        k ∈ ([([97], [120]), ([98], [121])] : List (Bytes × Bytes)).map Prod.fst) ∧
      (∀ k, k ∈ ([([97], [120]), ([98], [121])] : List (Bytes × Bytes)).map Prod.fst →
        dictLookup dS k = some (verify_file_exists (FS.mk [[47, 97]] [] false) [47] k))) :=
  ⟨by decide,
   verify_files_batch_mode_equiv [([97], [120]), ([98], [121])]
     [([98], [121]), ([97], [120])] (FS.mk [[47, 97]] [] false) [47] 0
     (by decide) (by decide)⟩

/-- C2 counterexample: two records share the filename `x`; the search trace
of the batch loop contains `x` twice — `verify_file_exists` is dispatched
once per record, not once per distinct filename, in the very loop both
modes of `verify_files_batch` run. -/
theorem verify_files_batch_no_dedup_counterexample :
    (runVerifications (FS.mk [] [] false) [47] [([120], [97]), ([120], [98])]).2.count
      [120] = 2 ∧
    verify_files_batch [([120], [97]), ([120], [98])] (FS.mk [] [] false) [47] true [] 0
      = Except.ok (runVerifications (FS.mk [] [] false) [47]
          [([120], [97]), ([120], [98])]).1 ∧
    (2 : Nat) ≠ 1 := by
  refine ⟨by decide, rfl, by decide⟩

/-- C2 amended: `verify_files_batch` performs no deduplication before
dispatch — the search trace is exactly the input filename list, one
`verify_file_exists` call per `(filename, location)` pair (so a filename
shared by n records is searched n times); deduplication happens only in the
results dict, which the sequential mode returns directly and the concurrent
mode fills in completion order. -/
theorem verify_files_batch_trace (fs : FS) (root : Bytes)
    (file_list completion_order : List (Bytes × Bytes)) (elapsed : Nat) :
    (runVerifications fs root file_list).2 = file_list.map Prod.fst ∧
    verify_files_batch file_list fs root true completion_order elapsed =
      Except.ok (runVerifications fs root file_list).1 ∧
    (elapsed < 1800 →
      verify_files_batch file_list fs root false completion_order elapsed =
        Except.ok (runVerifications fs root completion_order).1) := by
  refine ⟨?_, rfl, ?_⟩
  · unfold runVerifications
    rw [runVerAux_trace]
    simp
  · intro ht
    unfold verify_files_batch
    rw [if_neg (by simp), if_neg (by omega)]

/-- C2 amended witness: the trace for a duplicated filename at a concrete
input, and the concurrent branch under the deadline. -/
theorem verify_files_batch_trace_witness :
    (runVerifications (FS.mk [] [] false) [47] [([120], [97]), ([120], [98])]).2
      = [[120], [120]] ∧
    verify_files_batch [([120], [97]), ([120], [98])] (FS.mk [] [] false) [47]
      false [([120], [98]), ([120], [97])] 0 =
      Except.ok (runVerifications (FS.mk [] [] false) [47]
        [([120], [98]), ([120], [97])]).1 :=
  ⟨(verify_files_batch_trace (FS.mk [] [] false) [47] [([120], [97]), ([120], [98])]
      [([120], [98]), ([120], [97])] 0).1,
   (verify_files_batch_trace (FS.mk [] [] false) [47] [([120], [97]), ([120], [98])]
      [([120], [98]), ([120], [97])] 0).2.2 (by decide)⟩

/-! ## The 30-minute deadline (multithreaded mode only) -/

theorem update_mt_timeout (tracks : List Track) (root : Bytes) (dry : Bool)
    (completion_order : List (Bytes × Bytes)) (elapsed : Nat) (fs : FS)
    (h1800 : 1800 ≤ elapsed) (hne : (collectFiles tracks).1 ≠ []) :
    update_rekordbox_xml (Except.ok tracks) root dry false completion_order elapsed fs =
      UpdateOutcome.mk (UpdateReturn.four 0 0 [ErrMsg.unexpected] []) tracks false false := by
  have hb : verify_files_batch (collectFiles tracks).1 fs root false completion_order elapsed
      = Except.error BatchError.timeout := by
    unfold verify_files_batch
    rw [if_neg (by simp), if_pos h1800]
  have hfe : (collectFiles tracks).1.isEmpty = false := by
    cases h : (collectFiles tracks).1 with
    | nil => exact absurd h hne
    | cons a t => rfl
  unfold update_rekordbox_xml
  simp only [hfe, hb]
  simp

/-- C4: the 30-minute wall-clock alarm exists only in multithreaded mode:
there it makes the whole batch fail (`TimeoutError`), which
`update_rekordbox_xml` catches in its generic handler, returning zero counts
and a single unexpected-error entry — the caller gets no partial outcome set
and nothing is written.  The sequential mode has no timeout mechanism at
all: it returns its results whatever wall-clock time has elapsed. -/
theorem batch_timeout_multithreaded_only (file_list completion_order : List (Bytes × Bytes))
    (fs : FS) (root : Bytes) (elapsed : Nat) (tracks : List Track) (dry : Bool)
    (h1800 : 1800 ≤ elapsed) (hne : (collectFiles tracks).1 ≠ []) :
    verify_files_batch file_list fs root false completion_order elapsed =
      Except.error BatchError.timeout ∧
    (update_rekordbox_xml (Except.ok tracks) root dry false completion_order elapsed fs).ret
      = UpdateReturn.four 0 0 [ErrMsg.unexpected] [] ∧
    (update_rekordbox_xml (Except.ok tracks) root dry false completion_order elapsed fs).tracks
      = tracks ∧
    (update_rekordbox_xml (Except.ok tracks) root dry false completion_order elapsed fs).wroteXml
      = false ∧
    (∀ e2, verify_files_batch file_list fs root true completion_order e2 =
      Except.ok (runVerifications fs root file_list).1) := by
  have hu := update_mt_timeout tracks root dry completion_order elapsed fs h1800 hne
  refine ⟨?_, ?_, ?_, ?_, ?_⟩
  · unfold verify_files_batch
    rw [if_neg (by simp), if_pos h1800]
  · rw [hu]
  · rw [hu]
  · rw [hu]
  · intro e2; rfl

/-- C4 witness: the multithreaded branch fails and the driver reports the
generic four-tuple at a concrete eligible track and `elapsed = 1800`. -/
theorem batch_timeout_multithreaded_only_witness :
    (update_rekordbox_xml
        (Except.ok [Track.mk (some (schemeHostBytes ++ [120]))])
        [47, 109] false false [] 1800 (FS.mk [] [] false)).ret
      = UpdateReturn.four 0 0 [ErrMsg.unexpected] [] :=
  (batch_timeout_multithreaded_only [] [] (FS.mk [] [] false) [47, 109] 1800
    [Track.mk (some (schemeHostBytes ++ [120]))] false (by decide) (by decide)).2.1

/-- C4 counterexample: at `elapsed = 100000` seconds (far past the
30-minute deadline) the sequential mode still returns its outcome map and
never the timeout failure the claim requires of both modes. -/
theorem sequential_mode_unbounded_counterexample :
    verify_files_batch [([120], [97])] (FS.mk [] [] false) [47] true [] 100000 =
      Except.ok [([120], (false, none))] ∧
    verify_files_batch [([120], [97])] (FS.mk [] [] false) [47] true [] 100000 ≠
      Except.error BatchError.timeout := by
  refine ⟨rfl, ?_⟩
  intro h
  exact Except.noConfusion h

/-! ## Lemmas about the collection and result-processing loops -/

theorem collectAux_all_ineligible :
    ∀ (tracks : List Track) (i : Nat) (files : List (Bytes × Bytes))
      (locs : List (Bytes × Nat)),
      (∀ t ∈ tracks, eligibleTrack t = false) →
      collectAux i files locs tracks = (files, locs) := by
  intro tracks
  induction tracks with
  | nil => intro i files locs _; rfl
  | cons t rest ih =>
    intro i files locs h
    have ht : eligibleTrack t = false := h t (by simp)
    have hrest : ∀ t2 ∈ rest, eligibleTrack t2 = false := fun t2 h2 => h t2 (by simp [h2])
    cases hl : t.location with
    | none =>
      simp only [collectAux, hl]
      exact ih _ _ _ hrest
    | some loc =>
      have hsw : startsWithBytes schemeHostBytes loc = false := by
        unfold eligibleTrack at ht
        rw [hl] at ht
        exact ht
      simp only [collectAux, hl, hsw, Bool.false_eq_true, if_false]
      exact ih _ _ _ hrest

theorem collectAux_eq_nil :
    ∀ (tracks : List Track) (i : Nat) (files : List (Bytes × Bytes))
      (locs : List (Bytes × Nat)),
      (collectAux i files locs tracks).1 = [] →
      files = [] ∧ ∀ t ∈ tracks, eligibleTrack t = false := by
  intro tracks
  induction tracks with
  | nil =>
    intro i files locs h
    simp only [collectAux] at h
    exact ⟨h, by simp⟩
  | cons t rest ih =>
    intro i files locs h
    cases hl : t.location with
    | none =>
      simp only [collectAux, hl] at h
      obtain ⟨hf, hrest⟩ := ih _ _ _ h
      refine ⟨hf, ?_⟩
      intro t2 ht2
      rcases List.mem_cons.mp ht2 with rfl | hm
      · simp [eligibleTrack, hl]
      · exact hrest t2 hm
    | some loc =>
      cases hsw : startsWithBytes schemeHostBytes loc with
      | true =>
        simp only [collectAux, hl, hsw, if_true] at h
        obtain ⟨hf, _⟩ := ih _ _ _ h
        exact absurd hf (by simp)
      | false =>
        simp only [collectAux, hl, hsw, Bool.false_eq_true, if_false] at h
        obtain ⟨hf, hrest⟩ := ih _ _ _ h
        refine ⟨hf, ?_⟩
        intro t2 ht2
        rcases List.mem_cons.mp ht2 with rfl | hm
        · unfold eligibleTrack
          rw [hl]
          exact hsw
        · exact hrest t2 hm

theorem collectAux_keys :
    ∀ (tracks : List Track) (i : Nat) (files : List (Bytes × Bytes))
      (locs : List (Bytes × Nat)),
      (∀ k, k ∈ files.map Prod.fst → dictLookup locs k ≠ none) →
      ∀ k, k ∈ (collectAux i files locs tracks).1.map Prod.fst →
        dictLookup (collectAux i files locs tracks).2 k ≠ none := by
  intro tracks
  induction tracks with
  | nil =>
    intro i files locs h k hk
    simp only [collectAux] at hk ⊢
    exact h k hk
  | cons t rest ih =>
    intro i files locs h k
    cases hl : t.location with
    | none =>
      simp only [collectAux, hl]
      exact ih _ _ _ h k
    | some loc =>
      cases hsw : startsWithBytes schemeHostBytes loc with
      | false =>
        simp only [collectAux, hl, hsw, Bool.false_eq_true, if_false]
        exact ih _ _ _ h k
      | true =>
        simp only [collectAux, hl, hsw, if_true]
        apply ih
        intro k2 hk2
        rw [List.map_append] at hk2
        rcases List.mem_append.mp hk2 with hm | hm
        · rw [dictLookup_dictSet]
          by_cases he : extract_filename_from_location loc = k2
          · rw [if_pos he]; simp
          · rw [if_neg he]; exact h k2 hm
        · have hk3 : k2 = extract_filename_from_location loc := by simpa using hm
          rw [dictLookup_dictSet, if_pos hk3.symm]
          simp

theorem runVerAux_values (fs : FS) (root : Bytes) :
    ∀ (l : List (Bytes × Bytes)) (results : List (Bytes × (Bool × Option Bytes)))
      (trace : List Bytes),
      (∀ p ∈ results, p.2 = verify_file_exists fs root p.1) →
      ∀ p ∈ (runVerAux fs root results trace l).1,
        p.2 = verify_file_exists fs root p.1 := by
  intro l
  induction l with
  | nil => intro results trace h; simpa [runVerAux] using h
  | cons q rest ih =>
    intro results trace h
    obtain ⟨fn, loc⟩ := q
    simp only [runVerAux]
    apply ih
    exact dictSet_values results fn _ (verify_file_exists fs root) rfl h

theorem verify_file_exists_cases (fs : FS) (root f : Bytes) :
    verify_file_exists fs root f = (true, some (pathJoin (ensureSlash root) f)) ∨
    (∃ dir, verify_file_exists fs root f = (true, some (pathJoin dir f))) ∨
    verify_file_exists fs root f = (false, none) := by
  unfold verify_file_exists
  by_cases hd : pathJoin (ensureSlash root) f ∈ fs.files
  · left; simp [hd]
  · right
    cases hw : findWalkDir fs.walkEntries f with
    | some dir => left; exact ⟨dir, by simp [hd, hw]⟩
    | none => right; cases hwe : fs.walkErr <;> simp [hd, hw, hwe]

theorem verify_file_exists_found_some (fs : FS) (root f : Bytes) :
    (verify_file_exists fs root f).1 = true → (verify_file_exists fs root f).2 ≠ none := by
  intro h
  rcases verify_file_exists_cases fs root f with hc | ⟨dir, hc⟩ | hc
  · rw [hc]; simp
  · rw [hc]; simp
  · rw [hc] at h; simp at h

theorem runVerAux_keys_nodup (fs : FS) (root : Bytes) :
    ∀ (l : List (Bytes × Bytes)) (results : List (Bytes × (Bool × Option Bytes)))
      (trace : List Bytes),
      (results.map Prod.fst).Nodup →
      ((runVerAux fs root results trace l).1.map Prod.fst).Nodup := by
  intro l
  induction l with
  | nil => intro results trace h; simpa [runVerAux] using h
  | cons q rest ih =>
    intro results trace h
    obtain ⟨fn, loc⟩ := q
    simp only [runVerAux]
    apply ih
    rw [dictSet_keys]
    by_cases hm : fn ∈ results.map Prod.fst
    · rw [if_pos hm]; exact h
    · rw [if_neg hm]
      rw [List.nodup_append]
      refine ⟨h, List.nodup_singleton _, ?_⟩
      intro a ha hb
      simp at hb
      subst hb
      exact hm ha

theorem runVerifications_length (fs : FS) (root : Bytes) (l : List (Bytes × Bytes)) :
    (runVerifications fs root l).1.length = (l.map Prod.fst).dedup.length := by
  have hnodup : ((runVerifications fs root l).1.map Prod.fst).Nodup :=
    runVerAux_keys_nodup fs root l [] [] (by simp)
  have hmem : ∀ k, k ∈ (runVerifications fs root l).1.map Prod.fst ↔
      k ∈ l.map Prod.fst := by
    intro k
    have := runVerAux_keys_mem fs root l [] [] k
    simpa [runVerifications] using this
  have h1 : ((runVerifications fs root l).1.map Prod.fst).toFinset =
      (l.map Prod.fst).toFinset := by
    ext k
    simp [List.mem_toFinset, hmem k]
  have h2 : (runVerifications fs root l).1.length =
      ((runVerifications fs root l).1.map Prod.fst).length := (List.length_map _ _).symm
  rw [h2, ← List.toFinset_card_of_nodup hnodup, h1, List.card_toFinset]

theorem processResults_ok (root : Bytes) (dry : Bool) (locs : List (Bytes × Nat)) :
    ∀ (res : List (Bytes × (Bool × Option Bytes))) (tracks : List Track)
      (sc ec : Nat) (errs : List ErrMsg) (succ : List (Bytes × Bytes)),
      (∀ p ∈ res, dictLookup locs p.1 ≠ none) →
      (∀ p ∈ res, p.2.1 = true → p.2.2 ≠ none) →
      ∃ sc2 ec2 errs2 succ2 tracks2,
        processResults root dry locs res tracks sc ec errs succ =
          Except.ok (sc2, ec2, errs2, succ2, tracks2) ∧
        sc2 + ec2 = sc + ec + res.length := by
  intro res
  induction res with
  | nil =>
    intro tracks sc ec errs succ _ _
    exact ⟨sc, ec, errs, succ, tracks, rfl, by simp⟩
  | cons p rest ih =>
    intro tracks sc ec errs succ hkeys hvals
    obtain ⟨fn, found, fpath⟩ := p
    have hk : dictLookup locs fn ≠ none := hkeys (fn, found, fpath) (by simp)
    cases hlk : dictLookup locs fn with
    | none => exact absurd hlk hk
    | some idx =>
      cases found with
      | false =>
        simp only [processResults, hlk, Bool.false_eq_true, if_false]
        obtain ⟨sc2, ec2, errs2, succ2, t2, heq, hsum⟩ :=
          ih tracks sc (ec + 1)
            (errs ++ [ErrMsg.fileNotFound (pathJoin root fn)]) succ
            (fun q hq => hkeys q (by simp [hq])) (fun q hq => hvals q (by simp [hq]))
        exact ⟨sc2, ec2, errs2, succ2, t2, heq,
          by simp only [List.length_cons]; omega⟩
      | true =>
        have hp : fpath ≠ none := hvals (fn, true, fpath) (by simp) rfl
        cases hfp : fpath with
        | none => exact absurd hfp hp
        | some fp =>
          simp only [processResults, hlk, if_true]
          obtain ⟨sc2, ec2, errs2, succ2, t2, heq, hsum⟩ :=
            ih (if dry then tracks else setTrackLocation tracks idx (build_new_location root fn))
              (sc + 1) ec errs
              (succ ++ [(fn, if fp = pathJoin root fn then rootLiteral
                else relpathFrom fp root)])
              (fun q hq => hkeys q (by simp [hq])) (fun q hq => hvals q (by simp [hq]))
          exact ⟨sc2, ec2, errs2, succ2, t2, heq,
            by simp only [List.length_cons]; omega⟩

theorem processResults_dry_tracks (root : Bytes) (locs : List (Bytes × Nat)) :
    ∀ (res : List (Bytes × (Bool × Option Bytes))) (tracks : List Track)
      (sc ec : Nat) (errs : List ErrMsg) (succ : List (Bytes × Bytes)),
      tracksOfPR (processResults root true locs res tracks sc ec errs succ) = tracks := by
  intro res
  induction res with
  | nil => intro tracks sc ec errs succ; rfl
  | cons p rest ih =>
    intro tracks sc ec errs succ
    obtain ⟨fn, found, fpath⟩ := p
    cases hlk : dictLookup locs fn with
    | none => simp [processResults, hlk, tracksOfPR]
    | some idx =>
      cases found with
      | false =>
        simp only [processResults, hlk, Bool.false_eq_true, if_false]
        exact ih _ _ _ _ _
      | true =>
        cases fpath with
        | none => simp [processResults, hlk, tracksOfPR]
        | some fp =>
          simp only [processResults, hlk, if_true]
          exact ih _ _ _ _ _

/-- C1 counterexample: two eligible records derive the same filename `x`
(locations `.../a/x` and `.../b/x`); the run produces a single
RelocationResult (`success_count + error_count = 1`, not 2) and the first
record's `Location` is left untouched even though the run is not a dry run
and the file was found — the record is silently dropped. -/
theorem dup_filename_drops_record_counterexample :
    (update_rekordbox_xml
        (Except.ok [Track.mk (some (schemeHostBytes ++ [97, 47, 120])),
          Track.mk (some (schemeHostBytes ++ [98, 47, 120]))])
        [47, 109] false true [] 0 (FS.mk [[47, 109, 47, 120]] [] false)).ret =
      UpdateReturn.four 1 0 [] [([120], rootLiteral)] ∧
    (List.filter eligibleTrack
      [Track.mk (some (schemeHostBytes ++ [97, 47, 120])),
       Track.mk (some (schemeHostBytes ++ [98, 47, 120]))]).length = 2 ∧
    (1 + 0 : Nat) ≠ 2 ∧
    ((update_rekordbox_xml
        (Except.ok [Track.mk (some (schemeHostBytes ++ [97, 47, 120])),
          Track.mk (some (schemeHostBytes ++ [98, 47, 120]))])
        [47, 109] false true [] 0 (FS.mk [[47, 109, 47, 120]] [] false)).tracks.getD 0
        (Track.mk none))
      = Track.mk (some (schemeHostBytes ++ [97, 47, 120])) := by
  refine ⟨by decide, by decide, by decide, by decide⟩

/-- C1 amended: a completed run yields exactly one RelocationResult per
DISTINCT derived filename (`success_count + error_count` equals the number
of distinct filenames among eligible records).  When all derived filenames
are distinct this is one result per record; records sharing a filename are
collapsed into a single result — `track_locations[filename] = track`
overwrites, so only the last such record is updated and earlier duplicates
are dropped. -/
theorem one_result_per_distinct_filename (tracks : List Track) (root : Bytes)
    (dry : Bool) (completion_order : List (Bytes × Bytes)) (elapsed : Nat) (fs : FS)
    (hne : (collectFiles tracks).1 ≠ []) :
    ∃ sc ec errs succ,
      (update_rekordbox_xml (Except.ok tracks) root dry true completion_order elapsed fs).ret
        = UpdateReturn.four sc ec errs succ ∧
      sc + ec = ((collectFiles tracks).1.map Prod.fst).dedup.length ∧
      (((collectFiles tracks).1.map Prod.fst).Nodup →
        sc + ec = (collectFiles tracks).1.length) := by
  have hfe : (collectFiles tracks).1.isEmpty = false := by
    cases h : (collectFiles tracks).1 with
    | nil => exact absurd h hne
    | cons a t => rfl
  have hkeys : ∀ p ∈ (runVerifications fs root (collectFiles tracks).1).1,
      dictLookup (collectFiles tracks).2 p.1 ≠ none := by
    intro p hp
    have hpfst : p.1 ∈ (runVerifications fs root (collectFiles tracks).1).1.map Prod.fst :=
      List.mem_map_of_mem Prod.fst hp
    have hmem : p.1 ∈ (collectFiles tracks).1.map Prod.fst := by
      have := (runVerAux_keys_mem fs root (collectFiles tracks).1 [] [] p.1).mp hpfst
      simpa using this
    exact collectAux_keys tracks 0 [] [] (by simp) p.1 hmem
  have hvals0 : ∀ p ∈ (runVerifications fs root (collectFiles tracks).1).1,
      p.2 = verify_file_exists fs root p.1 :=
    runVerAux_values fs root _ [] [] (by simp)
  have hvals : ∀ p ∈ (runVerifications fs root (collectFiles tracks).1).1,
      p.2.1 = true → p.2.2 ≠ none := by
    intro p hp ht
    rw [hvals0 p hp] at ht ⊢
    exact verify_file_exists_found_some fs root p.1 ht
  obtain ⟨sc, ec, errs, succ, t2, heq, hsum⟩ :=
    processResults_ok root dry (collectFiles tracks).2
      (runVerifications fs root (collectFiles tracks).1).1 tracks 0 0 [] [] hkeys hvals
  have hlen := runVerifications_length fs root (collectFiles tracks).1
  refine ⟨sc, ec, errs, succ, ?_, by omega, ?_⟩
  · unfold update_rekordbox_xml
    simp only [hfe, Bool.false_eq_true, if_false, verify_files_batch, if_true, heq]
  · intro hnd
    have h3 : ((collectFiles tracks).1.map Prod.fst).dedup.length =
        (collectFiles tracks).1.length := by
      rw [List.dedup_eq_self.mpr hnd, List.length_map]
    omega

/-- C1 amended witness: a single eligible record at a concrete input. -/
theorem one_result_per_distinct_filename_witness :
    ∃ sc ec errs succ,
      (update_rekordbox_xml (Except.ok [Track.mk (some (schemeHostBytes ++ [120]))])
        [47, 109] false true [] 0 (FS.mk [] [] false)).ret
        = UpdateReturn.four sc ec errs succ ∧
      sc + ec = (((collectFiles [Track.mk (some (schemeHostBytes ++ [120]))]).1.map
        Prod.fst).dedup).length ∧
      (((collectFiles [Track.mk (some (schemeHostBytes ++ [120]))]).1.map Prod.fst).Nodup →
        sc + ec = (collectFiles [Track.mk (some (schemeHostBytes ++ [120]))]).1.length) :=
  one_result_per_distinct_filename [Track.mk (some (schemeHostBytes ++ [120]))]
    [47, 109] false [] 0 (FS.mk [] [] false) (by decide)

/-- C9: when the catalog parses but no record is eligible,
`update_rekordbox_xml` returns the 3-element tuple `(0, 0, [])`, which
`main`'s unconditional 4-way unpacking turns into a `ValueError`; every
other return path — parse failure, batch failure, or a processed batch —
yields a 4-element tuple. -/
theorem empty_batch_returns_three_tuple (tracks : List Track) (root : Bytes)
    (dry use_single : Bool) (completion_order : List (Bytes × Bytes)) (elapsed : Nat)
    (fs : FS) (h : ∀ t ∈ tracks, eligibleTrack t = false) :
    (update_rekordbox_xml (Except.ok tracks) root dry use_single completion_order
      elapsed fs).ret = UpdateReturn.three 0 0 [] ∧
    unpackFour (update_rekordbox_xml (Except.ok tracks) root dry use_single
      completion_order elapsed fs).ret = Except.error () ∧
    ∀ (parsed : Except Unit (List Track)),
      (∃ a b c d, (update_rekordbox_xml parsed root dry use_single completion_order
        elapsed fs).ret = UpdateReturn.four a b c d) ∨
      (∃ tr, parsed = Except.ok tr ∧ ∀ t ∈ tr, eligibleTrack t = false) := by
  have hcol : collectFiles tracks = ([], []) :=
    collectAux_all_ineligible tracks 0 [] [] h
  have h1 : (update_rekordbox_xml (Except.ok tracks) root dry use_single
      completion_order elapsed fs).ret = UpdateReturn.three 0 0 [] := by
    unfold update_rekordbox_xml
    simp only [hcol]
    rfl
  refine ⟨h1, by rw [h1]; rfl, ?_⟩
  intro parsed
  cases parsed with
  | error e =>
    left
    exact ⟨0, 0, [ErrMsg.xmlParsing], [], rfl⟩
  | ok tr =>
    by_cases hemp : (collectFiles tr).1 = []
    · right
      exact ⟨tr, rfl, (collectAux_eq_nil tr 0 [] [] hemp).2⟩
    · left
      have hfe : (collectFiles tr).1.isEmpty = false := by
        cases h2 : (collectFiles tr).1 with
        | nil => exact absurd h2 hemp
        | cons a t => rfl
      cases hb : verify_files_batch (collectFiles tr).1 fs root use_single
          completion_order elapsed with
      | error e =>
        refine ⟨0, 0, [ErrMsg.unexpected], [], ?_⟩
        unfold update_rekordbox_xml
        simp only [hfe, Bool.false_eq_true, if_false, hb]
      | ok res =>
        cases hp : processResults root dry (collectFiles tr).2 res tr 0 0 [] [] with
        | error t2 =>
          refine ⟨0, 0, [ErrMsg.unexpected], [], ?_⟩
          unfold update_rekordbox_xml
          simp only [hfe, Bool.false_eq_true, if_false, hb, hp]
        | ok out =>
          obtain ⟨sc, ec, errs, succ, t2⟩ := out
          refine ⟨sc, ec, errs, succ, ?_⟩
          unfold update_rekordbox_xml
          simp only [hfe, Bool.false_eq_true, if_false, hb, hp]

/-- C9 witness: one track without a `Location` attribute. -/
theorem empty_batch_returns_three_tuple_witness :
    (update_rekordbox_xml (Except.ok [Track.mk none]) [47] false true [] 0
      (FS.mk [] [] false)).ret = UpdateReturn.three 0 0 [] ∧
    unpackFour (update_rekordbox_xml (Except.ok [Track.mk none]) [47] false true [] 0
      (FS.mk [] [] false)).ret = Except.error () :=
  ⟨(empty_batch_returns_three_tuple [Track.mk none] [47] false true [] 0
      (FS.mk [] [] false) (by decide)).1,
   (empty_batch_returns_three_tuple [Track.mk none] [47] false true [] 0
      (FS.mk [] [] false) (by decide)).2.1⟩

/-- C10: with `dry_run=True` the driver leaves every track's `Location`
unchanged and writes neither the backup nor the XML file; across all inputs
the files are written exactly when `dry_run` is false and at least one file
was found (`success_count > 0`), and the backup write accompanies the XML
write. -/
theorem dry_run_frame (parsed : Except Unit (List Track)) (root : Bytes)
    (use_single : Bool) (completion_order : List (Bytes × Bytes)) (elapsed : Nat)
    (fs : FS) :
    ((update_rekordbox_xml parsed root true use_single completion_order elapsed fs).tracks
        = tracksOf parsed ∧
      (update_rekordbox_xml parsed root true use_single completion_order elapsed
        fs).wroteBackup = false ∧
      (update_rekordbox_xml parsed root true use_single completion_order elapsed
        fs).wroteXml = false) ∧
    ∀ dry : Bool,
      ((update_rekordbox_xml parsed root dry use_single completion_order elapsed
          fs).wroteXml = true ↔
        dry = false ∧ 0 < retSuccess (update_rekordbox_xml parsed root dry use_single
          completion_order elapsed fs).ret) ∧
      (update_rekordbox_xml parsed root dry use_single completion_order elapsed
          fs).wroteBackup =
        (update_rekordbox_xml parsed root dry use_single completion_order elapsed
          fs).wroteXml := by
  have key : ∀ dry : Bool,
      ((update_rekordbox_xml parsed root dry use_single completion_order elapsed
          fs).wroteXml = true ↔
        dry = false ∧ 0 < retSuccess (update_rekordbox_xml parsed root dry use_single
          completion_order elapsed fs).ret) ∧
      (update_rekordbox_xml parsed root dry use_single completion_order elapsed
          fs).wroteBackup =
        (update_rekordbox_xml parsed root dry use_single completion_order elapsed
          fs).wroteXml ∧
      (dry = true →
        (update_rekordbox_xml parsed root dry use_single completion_order elapsed
          fs).tracks = tracksOf parsed) := by
    intro dry
    cases parsed with
    | error e =>
      refine ⟨?_, rfl, fun _ => rfl⟩
      simp [update_rekordbox_xml, retSuccess]
    | ok tracks =>
      by_cases hemp : (collectFiles tracks).1.isEmpty = true
      · have hu : update_rekordbox_xml (Except.ok tracks) root dry use_single
            completion_order elapsed fs =
            UpdateOutcome.mk (UpdateReturn.three 0 0 []) tracks false false := by
          unfold update_rekordbox_xml
          simp only [hemp, if_true]
        rw [hu]
        refine ⟨?_, rfl, fun _ => rfl⟩
        simp [retSuccess]
      · have hfe : (collectFiles tracks).1.isEmpty = false := by
          cases hx : (collectFiles tracks).1.isEmpty with
          | false => rfl
          | true => exact absurd hx hemp
        cases hb : verify_files_batch (collectFiles tracks).1 fs root use_single
            completion_order elapsed with
        | error e =>
          have hu : update_rekordbox_xml (Except.ok tracks) root dry use_single
              completion_order elapsed fs =
              UpdateOutcome.mk (UpdateReturn.four 0 0 [ErrMsg.unexpected] [])
                tracks false false := by
            unfold update_rekordbox_xml
            simp only [hfe, Bool.false_eq_true, if_false, hb]
          rw [hu]
          refine ⟨?_, rfl, fun _ => rfl⟩
          simp [retSuccess]
        | ok res =>
          cases hp : processResults root dry (collectFiles tracks).2 res tracks
              0 0 [] [] with
          | error t2 =>
            have hu : update_rekordbox_xml (Except.ok tracks) root dry use_single
                completion_order elapsed fs =
                UpdateOutcome.mk (UpdateReturn.four 0 0 [ErrMsg.unexpected] [])
                  t2 false false := by
              unfold update_rekordbox_xml
              simp only [hfe, Bool.false_eq_true, if_false, hb, hp]
            rw [hu]
            refine ⟨?_, rfl, ?_⟩
            · simp [retSuccess]
            · intro hdry
              subst hdry
              have := processResults_dry_tracks root (collectFiles tracks).2 res
                tracks 0 0 [] []
              rw [hp] at this
              exact this
          | ok out =>
            obtain ⟨sc, ec, errs, succ, t2⟩ := out
            have hu : update_rekordbox_xml (Except.ok tracks) root dry use_single
                completion_order elapsed fs =
                UpdateOutcome.mk (UpdateReturn.four sc ec errs succ) t2
                  (!dry && decide (0 < sc)) (!dry && decide (0 < sc)) := by
              unfold update_rekordbox_xml
              simp only [hfe, Bool.false_eq_true, if_false, hb, hp]
            rw [hu]
            refine ⟨?_, rfl, ?_⟩
            · cases dry <;> simp [retSuccess]
            · intro hdry
              subst hdry
              have := processResults_dry_tracks root (collectFiles tracks).2 res
                tracks 0 0 [] []
              rw [hp] at this
              exact this
  refine ⟨⟨(key true).2.2 rfl, ?_, ?_⟩, fun dry => ⟨(key dry).1, (key dry).2.1⟩⟩
  · have h1 := (key true).2.1
    have h2 := (key true).1
    cases hx : (update_rekordbox_xml parsed root true use_single completion_order
        elapsed fs).wroteBackup with
    | false => rfl
    | true =>
      rw [hx] at h1
      have h3 := h2.mp h1.symm
      exact absurd h3.1 (by simp)
  · cases hx : (update_rekordbox_xml parsed root true use_single completion_order
        elapsed fs).wroteXml with
    | false => rfl
    | true =>
      have h3 := (key true).1.mp hx
      exact absurd h3.1 (by simp)

/-- C10 witness: a concrete dry run over one eligible, findable record:
tree unchanged, nothing written. -/
theorem dry_run_frame_witness :
    (update_rekordbox_xml (Except.ok [Track.mk (some (schemeHostBytes ++ [120]))])
      [47, 109] true true [] 0 (FS.mk [[47, 109, 47, 120]] [] false)).tracks
      = tracksOf (Except.ok [Track.mk (some (schemeHostBytes ++ [120]))]) ∧
    (update_rekordbox_xml (Except.ok [Track.mk (some (schemeHostBytes ++ [120]))])
      [47, 109] true true [] 0 (FS.mk [[47, 109, 47, 120]] [] false)).wroteXml = false :=
  ⟨(dry_run_frame (Except.ok [Track.mk (some (schemeHostBytes ++ [120]))]) [47, 109]
      true [] 0 (FS.mk [[47, 109, 47, 120]] [] false)).1.1,
   (dry_run_frame (Except.ok [Track.mk (some (schemeHostBytes ++ [120]))]) [47, 109]
      true [] 0 (FS.mk [[47, 109, 47, 120]] [] false)).1.2.2⟩
